import Mathlib

/-!
# Verification of the benchmark execution engine (`src/lib/Benchmark.ts`)

This file gives a shallow embedding of the benchmark runner in
`src/lib/Benchmark.ts` (the current version of the file, i.e. the
`Benchmark` factory taking `delay`, `cycle`, `iteration`, `iterations`,
`beforeAll`, `afterAll`, `preMeasureIteration`, `preMeasureIterations`),
together with the `BenchmarkCase` shape from `src/types/BenchmarkCase.ts`
and, for the progress-reporting claims, the consumer-side callbacks
registered in `src/App.tsx`.

Modelling decisions (each mirrors a construct of the source):

* JavaScript numbers are modelled by `Js`: a rational, `NaN`, or a signed
  infinity.  Signed zero is not distinguished (no claim depends on it).
  The only nontrivial arithmetic the engine performs is `+` and `/`
  (`totalms += ms`, `ms = (end - start) / (bulk ?? 1)`,
  `mean = totalms / n`), so only those are defined.
* Every `await` in the source is one `doAwait` step.  An optional callback
  such as `iteration?.(...)` is awaited by the source even when the
  callback is absent, so every await site performs a clock tick; an event
  is appended to the trace only when the corresponding callback / hook is
  present.  (The extra microtask boundary of awaiting the promise of a
  nested `async` helper such as `runPreMeasure` introduces no observable
  difference — no flag is read between it and the surrounding awaits — and
  is omitted.)
* `cancel()` runs in a task of its own, so it can only take effect while
  the engine is suspended at an `await`.  The environment `Env` says, for
  each await (numbered by the clock), whether `cancel()` was called while
  that await was pending; delivery replays `cancel`'s own body: the
  `abort` flag is set only when `running` is true at that moment.
* A hook body is external to the engine; its only observable effects are
  the event recorded in the trace, the wall-clock duration of `measure`
  (supplied by `Env.measureDur`), and a possible rejection of `measure` /
  `preMeasure` (supplied by `Env`).  A rejection models the promise
  rejecting, and surfaces as the `Res.err` outcome of `run` — the source
  has no `try`/`catch`, so nothing intercepts it.
* `iterations` and `preMeasureIterations` are modelled as integers: the
  claims only exercise integral (including zero and negative) counts.
-/

/-- A JavaScript number, as far as the engine's arithmetic needs:
a finite rational, `NaN`, `Infinity` or `-Infinity`.  Signed zero is
collapsed to `0`. -/
inductive Js where
  | nan : Js
  | inf : Js
  | ninf : Js
  | num : ℚ → Js
deriving DecidableEq, Repr

/-- JavaScript addition restricted to `Js`. -/
def Js.add : Js → Js → Js
  | nan, _ => nan
  | _, nan => nan
  | inf, ninf => nan
  | ninf, inf => nan
  | inf, _ => inf
  | _, inf => inf
  | ninf, _ => ninf
  | _, ninf => ninf
  | num a, num b => num (a + b)

/-- JavaScript division restricted to `Js`: in particular `0 / 0 = NaN`
and `x / 0 = ±Infinity` for `x ≠ 0`. -/
def Js.div : Js → Js → Js
  | nan, _ => nan
  | _, nan => nan
  | inf, inf => nan
  | inf, ninf => nan
  | ninf, inf => nan
  | ninf, ninf => nan
  | inf, num b => if b < 0 then ninf else inf
  | ninf, num b => if b < 0 then inf else ninf
  | num _, inf => num 0
  | num _, ninf => num 0
  | num a, num b =>
      if b = 0 then (if a = 0 then nan else if a < 0 then ninf else inf)
      else num (a / b)

/-- One observable engine action: every awaited hook or callback
invocation, plus the awaited `sleep(delay)` pauses.  The payload fields
are exactly the arguments the source passes to the callback. -/
inductive Ev where
  | beforeAll : Ev
  | before : String → Ev
  | preMeasure : String → Nat → Ev
  | preMeasureIteration : String → Nat → Ev
  | sleepEv : Ev
  | measure : String → Nat → Ev
  | iteration : String → Nat → Js → Js → Ev
  | postMeasure : String → Nat → Ev
  | cycle : String → Js → Ev
  | after : String → Ev
  | afterAll : Ev
deriving DecidableEq, Repr

/-- Embedding of `BenchmarkCase` (`src/types/BenchmarkCase.ts`).  The
bodies of the hooks are external; the engine only observes whether each
optional hook is present (`has*`), the required `measure` being modelled
through `Env`.  `bulk` is the optional bulk factor. -/
structure BenchmarkCase where
  name : String
  bulk : Option ℚ
  hasBefore : Bool
  hasPreMeasure : Bool
  hasPostMeasure : Bool
  hasAfter : Bool
deriving DecidableEq, Repr

/-- The constructor options of `Benchmark({...})`: the iteration counts and
which optional callbacks were supplied.  (`delay`'s numeric value is not
observable beyond the awaited sleep itself.) -/
structure Config where
  iterations : Int := 1000
  preMeasureIterations : Option Int := none
  hasCycle : Bool := false
  hasIteration : Bool := false
  hasPreMeasureIteration : Bool := false
  hasBeforeAll : Bool := false
  hasAfterAll : Bool := false
deriving DecidableEq, Repr

/-- `preMeasureIterations || 0` from the source: `undefined` (and `0`
itself) collapse to `0`. -/
def Config.pmBound (cfg : Config) : Int :=
  match cfg.preMeasureIterations with
  | none => 0
  | some v => v

/-- The environment of one `run()` invocation: everything outside the
engine.  `cancelAt k` says whether `cancel()` was called while the `k`-th
await of the run was pending; `measureDur idx i` is the wall-clock
duration `end - start` observed for iteration `i` of the case at registry
position `idx`; the `*Fail` oracles say whether the corresponding call
rejects. -/
structure Env where
  cancelAt : Nat → Bool
  measureDur : Nat → Nat → ℚ
  measureFail : Nat → Nat → Bool
  preMeasureFail : Nat → Nat → Bool

/-- The engine's mutable state during a run, extended with the await
counter (`clock`) and the trace of observable actions. -/
structure RunCtx where
  totalms : Js
  abort : Bool
  running : Bool
  clock : Nat
  trace : List Ev
deriving DecidableEq, Repr

/-- `reset()` from the source: clears `abort`, `running` and `totalms`. -/
def reset (c : RunCtx) : RunCtx :=
  { c with abort := false, running := false, totalms := Js.num 0 }

/-- One awaited step: append the event (when the awaited callback is
present), advance the clock, and deliver a pending `cancel()` — which
sets `abort` only if `running` holds, mirroring `cancel`'s guard. -/
def doAwait (env : Env) (ev : Option Ev) (c : RunCtx) : RunCtx :=
  { c with
    trace := c.trace ++ ev.toList
    clock := c.clock + 1
    abort := if env.cancelAt c.clock && c.running then true else c.abort }

/-- Outcome of a fragment of the run: normal continuation, or an
uncaught rejection carrying the state at the point of failure. -/
inductive Res where
  | ok : RunCtx → Res
  | err : RunCtx → Res
deriving DecidableEq, Repr

/-- State projection of a `Res`. -/
def Res.ctx : Res → RunCtx
  | ok c => c
  | err c => c

/-- Whether the fragment completed without a rejection. -/
def Res.isOk : Res → Bool
  | ok _ => true
  | err _ => false

/-- Trace projection of a `Res`. -/
def Res.trace (r : Res) : List Ev := r.ctx.trace

/-- The `for` loop of `runPreMeasure`, at loop index `i` with `fuel`
iterations left (`fuel = max 0 (N - i)` where `N` is the loop bound):

```
for (let i = 0; i < (preMeasureIterations || 0); i++) {
  if (abort || !running) { reset(); break }
  await preMeasure(i)
  await preMeasureIteration?.(name, { i })
  if (abort || !running) break
}
```
-/
def runPreMeasureLoop (cfg : Config) (env : Env) (idx : Nat) (t : BenchmarkCase) :
    Nat → Nat → RunCtx → Res
  | _, 0, c => .ok c
  | i, fuel + 1, c =>
    if c.abort || !c.running then .ok (reset c)
    else
      let c1 := doAwait env (some (.preMeasure t.name i)) c
      if env.preMeasureFail idx i then .err c1
      else
        let c2 := doAwait env
          (if cfg.hasPreMeasureIteration then some (.preMeasureIteration t.name i) else none) c1
        if c2.abort || !c2.running then .ok c2
        else runPreMeasureLoop cfg env idx t (i + 1) fuel c2

/-- `runPreMeasure` from the source: returns immediately when the case has
no `preMeasure` hook, otherwise runs the loop `preMeasureIterations || 0`
times. -/
def runPreMeasure (cfg : Config) (env : Env) (idx : Nat) (t : BenchmarkCase)
    (c : RunCtx) : Res :=
  if !t.hasPreMeasure then .ok c
  else runPreMeasureLoop cfg env idx t 0 cfg.pmBound.toNat c

/-- The `for` loop of `runCase`:

```
for (let i = 0; i < iterations; i++) {
  if (abort || !running) { reset(); break }
  const start = performance.now()
  await measure(i)
  const end = performance.now()
  const ms = (end - start) / (bulk ?? 1)
  if (abort || !running) break
  totalms += ms
  await iteration?.(name, { i, ms, mean: totalms / (i + 1) })
  if (abort || !running) break
  await postMeasure?.(i)
}
```
-/
def runCaseLoop (cfg : Config) (env : Env) (idx : Nat) (t : BenchmarkCase) :
    Nat → Nat → RunCtx → Res
  | _, 0, c => .ok c
  | i, fuel + 1, c =>
    if c.abort || !c.running then .ok (reset c)
    else
      let c1 := doAwait env (some (.measure t.name i)) c
      if env.measureFail idx i then .err c1
      else
        let ms := Js.div (.num (env.measureDur idx i)) (.num (t.bulk.getD 1))
        if c1.abort || !c1.running then .ok c1
        else
          let c2 := { c1 with totalms := c1.totalms.add ms }
          let c3 := doAwait env
            (if cfg.hasIteration then
              some (.iteration t.name i ms (c2.totalms.div (.num ((i : ℚ) + 1))))
             else none) c2
          if c3.abort || !c3.running then .ok c3
          else
            let c4 := doAwait env
              (if t.hasPostMeasure then some (.postMeasure t.name i) else none) c3
            runCaseLoop cfg env idx t (i + 1) fuel c4

/-- `runCase` from the source: the measured loop, then — only when
`running && !abort` — the awaited `cycle` callback with
`mean = totalms / iterations`, followed by `totalms = 0`. -/
def runCase (cfg : Config) (env : Env) (idx : Nat) (t : BenchmarkCase)
    (c : RunCtx) : Res :=
  match runCaseLoop cfg env idx t 0 cfg.iterations.toNat c with
  | .err c1 => .err c1
  | .ok c1 =>
    if c1.running && !c1.abort then
      let c2 := doAwait env
        (if cfg.hasCycle then
          some (.cycle t.name (c1.totalms.div (.num (cfg.iterations : ℚ))))
         else none) c1
      .ok { c2 with totalms := Js.num 0 }
    else .ok c1

/-- The per-case body of `run`'s `for` loop over the registry, at registry
position `idx`:

```
await test.before?.(test.name)
await runPreMeasure(test)
await sleep(delay)
await runCase(test)
await test.after?.(test.name)
await sleep(delay)
```
-/
def runTests (cfg : Config) (env : Env) :
    Nat → List BenchmarkCase → RunCtx → Res
  | _, [], c => .ok c
  | idx, t :: rest, c =>
    let c1 := doAwait env (if t.hasBefore then some (.before t.name) else none) c
    match runPreMeasure cfg env idx t c1 with
    | .err c2 => .err c2
    | .ok c2 =>
      let c3 := doAwait env (some .sleepEv) c2
      match runCase cfg env idx t c3 with
      | .err c4 => .err c4
      | .ok c4 =>
        let c5 := doAwait env (if t.hasAfter then some (.after t.name) else none) c4
        let c6 := doAwait env (some .sleepEv) c5
        runTests cfg env (idx + 1) rest c6

/-- `run` from the source: the reentrancy guard (`if (running) return`),
`running = true`, the awaited `beforeAll`, the case loop, the awaited
`afterAll`, and the final `reset()`.  An uncaught rejection anywhere
surfaces as `Res.err` — nothing after the failing call executes. -/
def run (cfg : Config) (env : Env) (tests : List BenchmarkCase) (c : RunCtx) : Res :=
  if c.running then .ok c
  else
    let c0 := { c with running := true }
    let c1 := doAwait env (if cfg.hasBeforeAll then some .beforeAll else none) c0
    match runTests cfg env 0 tests c1 with
    | .err c2 => .err c2
    | .ok c2 =>
      let c3 := doAwait env (if cfg.hasAfterAll then some .afterAll else none) c2
      .ok (reset c3)

/-- The `Omit<BenchmarkCase, 'name'>` argument of `add`. -/
structure CaseSpec where
  bulk : Option ℚ
  hasBefore : Bool
  hasPreMeasure : Bool
  hasPostMeasure : Bool
  hasAfter : Bool
deriving DecidableEq, Repr

/-- `{ name, ...args }` from `add`. -/
def CaseSpec.toCase (name : String) (a : CaseSpec) : BenchmarkCase :=
  ⟨name, a.bulk, a.hasBefore, a.hasPreMeasure, a.hasPostMeasure, a.hasAfter⟩

/-- The state a `Benchmark` instance holds between API calls: the case
registry and the mutable flags. -/
structure Bench where
  tests : List BenchmarkCase
  totalms : Js
  abort : Bool
  running : Bool
deriving DecidableEq, Repr

/-- A freshly constructed `Benchmark` instance. -/
def Bench.init : Bench := ⟨[], Js.num 0, false, false⟩

/-- `clear()`: `tests.length = 0` followed by `reset()`. -/
def Bench.clear (_b : Bench) : Bench := ⟨[], Js.num 0, false, false⟩

/-- `add(name, args)`: `tests.push({ name, ...args })`, with no
validation of any kind. -/
def Bench.add (b : Bench) (name : String) (args : CaseSpec) : Bench :=
  { b with tests := b.tests ++ [args.toCase name] }

/-- `cancel()`: sets `abort` only when `running`. -/
def Bench.cancel (b : Bench) : Bench :=
  if b.running then { b with abort := true } else b

/-- The `RunCtx` with which a `run()` of instance `b` starts (clock and
trace are bookkeeping local to that run). -/
def Bench.startCtx (b : Bench) : RunCtx :=
  ⟨b.totalms, b.abort, b.running, 0, []⟩

/-- The start context of a fresh instance. -/
def ctx0 : RunCtx := Bench.init.startCtx

/-! ## Closed-form descriptions of the engine's behaviour

The following definitions give, in closed form, the event sequence and the
statistics the engine produces on an undisturbed run (no `cancel()`, no
rejection).  They are the specification side of the correspondence: the
theorems below prove that the engine defined above produces exactly these
traces and values. -/

/-- The normalized per-iteration measurement:
`ms = (end - start) / (bulk ?? 1)`. -/
def msOf (env : Env) (idx : Nat) (t : BenchmarkCase) (i : Nat) : Js :=
  Js.div (.num (env.measureDur idx i)) (.num (t.bulk.getD 1))

/-- `totalms` after the first `i` measured iterations of a case (starting
from `0`): the running sum of the normalized `ms` values, accumulated in
loop order. -/
def totalAfter (env : Env) (idx : Nat) (t : BenchmarkCase) : Nat → Js
  | 0 => Js.num 0
  | i + 1 => (totalAfter env idx t i).add (msOf env idx t i)

/-- The events of the pre-measure loop from index `i`, `fuel` iterations:
`preMeasure(i)` followed by the `preMeasureIteration` callback when
configured. -/
def preEvs (cfg : Config) (t : BenchmarkCase) : Nat → Nat → List Ev
  | _, 0 => []
  | i, fuel + 1 =>
    Ev.preMeasure t.name i ::
      ((if cfg.hasPreMeasureIteration then [Ev.preMeasureIteration t.name i] else []) ++
        preEvs cfg t (i + 1) fuel)

/-- The `mean` reported by the `iteration` callback of iteration `i`:
`totalms / (i + 1)` with `totalms` already including iteration `i`. -/
def meanAt (env : Env) (idx : Nat) (t : BenchmarkCase) (i : Nat) : Js :=
  (totalAfter env idx t (i + 1)).div (.num ((i : ℚ) + 1))

/-- The events of the measured loop from index `i`, `fuel` iterations:
`measure(i)`, then the `iteration` callback (when configured) with
`{i, ms, mean}`, then the `postMeasure` hook (when present). -/
def measEvs (cfg : Config) (env : Env) (idx : Nat) (t : BenchmarkCase) :
    Nat → Nat → List Ev
  | _, 0 => []
  | i, fuel + 1 =>
    Ev.measure t.name i ::
      ((if cfg.hasIteration then
          [Ev.iteration t.name i (msOf env idx t i) (meanAt env idx t i)]
        else []) ++
        (if t.hasPostMeasure then [Ev.postMeasure t.name i] else []) ++
        measEvs cfg env idx t (i + 1) fuel)

/-- The `mean` reported by the `cycle` callback:
`totalms / iterations` after all iterations. -/
def cycleMean (cfg : Config) (env : Env) (idx : Nat) (t : BenchmarkCase) : Js :=
  (totalAfter env idx t cfg.iterations.toNat).div (.num (cfg.iterations : ℚ))

/-- The full event sequence of one undisturbed case at registry position
`idx`: `before`, the pre-measure phase, the inter-phase sleep, the
measured loop, `cycle`, `after`, and the inter-case sleep. -/
def caseEvs (cfg : Config) (env : Env) (idx : Nat) (t : BenchmarkCase) : List Ev :=
  (if t.hasBefore then [Ev.before t.name] else []) ++
    (if t.hasPreMeasure then preEvs cfg t 0 cfg.pmBound.toNat else []) ++
    [Ev.sleepEv] ++
    measEvs cfg env idx t 0 cfg.iterations.toNat ++
    (if cfg.hasCycle then [Ev.cycle t.name (cycleMean cfg env idx t)] else []) ++
    (if t.hasAfter then [Ev.after t.name] else []) ++
    [Ev.sleepEv]

/-- The event sequences of the registry's cases, in registration order,
starting at registry position `idx`. -/
def casesEvs (cfg : Config) (env : Env) : Nat → List BenchmarkCase → List Ev
  | _, [] => []
  | idx, t :: rest => caseEvs cfg env idx t ++ casesEvs cfg env (idx + 1) rest

/-- The full event sequence of an undisturbed `run()`: `beforeAll`, the
cases in registration order, `afterAll`. -/
def runEvs (cfg : Config) (env : Env) (tests : List BenchmarkCase) : List Ev :=
  (if cfg.hasBeforeAll then [Ev.beforeAll] else []) ++
    casesEvs cfg env 0 tests ++
    (if cfg.hasAfterAll then [Ev.afterAll] else [])

/-! ### Projection lemmas -/

@[simp] theorem doAwait_totalms (env : Env) (ev : Option Ev) (c : RunCtx) :
    (doAwait env ev c).totalms = c.totalms := rfl

@[simp] theorem doAwait_running (env : Env) (ev : Option Ev) (c : RunCtx) :
    (doAwait env ev c).running = c.running := rfl

@[simp] theorem doAwait_trace (env : Env) (ev : Option Ev) (c : RunCtx) :
    (doAwait env ev c).trace = c.trace ++ ev.toList := rfl

@[simp] theorem doAwait_abort (env : Env) (ev : Option Ev) (c : RunCtx) :
    (doAwait env ev c).abort =
      (if env.cancelAt c.clock && c.running then true else c.abort) := rfl

theorem doAwait_abort_of_noCancel {env : Env} (hc : ∀ k, env.cancelAt k = false)
    (ev : Option Ev) (c : RunCtx) : (doAwait env ev c).abort = c.abort := by
  simp [hc]

@[simp] theorem reset_totalms (c : RunCtx) : (reset c).totalms = Js.num 0 := rfl

@[simp] theorem reset_running (c : RunCtx) : (reset c).running = false := rfl

@[simp] theorem reset_abort (c : RunCtx) : (reset c).abort = false := rfl

@[simp] theorem reset_trace (c : RunCtx) : (reset c).trace = c.trace := rfl

@[simp] theorem Res.ctx_ok (c : RunCtx) : (Res.ok c).ctx = c := rfl

@[simp] theorem Res.ctx_err (c : RunCtx) : (Res.err c).ctx = c := rfl

@[simp] theorem Res.isOk_ok (c : RunCtx) : (Res.ok c).isOk = true := rfl

@[simp] theorem Res.isOk_err (c : RunCtx) : (Res.err c).isOk = false := rfl

/-- `(if b then some x else none).toList` splits on the Boolean. -/
@[simp] theorem toList_ite_some {α : Type} (b : Bool) (x : α) :
    (if b then some x else none).toList = (if b then [x] else []) := by
  cases b <;> rfl

/-- Closed form of the pre-measure loop on an undisturbed run: starting
with `abort` clear and `running` set, the loop emits exactly the
`preEvs` events, leaves `totalms` untouched, and keeps the flags. -/
theorem runPreMeasureLoop_ok (cfg : Config) (env : Env) (idx : Nat) (t : BenchmarkCase)
    (hc : ∀ k, env.cancelAt k = false)
    (hf : ∀ j, env.preMeasureFail idx j = false) :
    ∀ fuel i c, c.abort = false → c.running = true →
      ∃ d, runPreMeasureLoop cfg env idx t i fuel c = .ok d ∧
        d.trace = c.trace ++ preEvs cfg t i fuel ∧
        d.totalms = c.totalms ∧ d.abort = false ∧ d.running = true := by
  intro fuel
  induction fuel with
  | zero =>
    intro i c ha hr
    exact ⟨c, rfl, by simp [preEvs], rfl, ha, hr⟩
  | succ fuel ih =>
    intro i c ha hr
    have ha2 : (doAwait env
        (if cfg.hasPreMeasureIteration then some (Ev.preMeasureIteration t.name i) else none)
        (doAwait env (some (Ev.preMeasure t.name i)) c)).abort = false := by
      simp [hc, ha]
    have hr2 : (doAwait env
        (if cfg.hasPreMeasureIteration then some (Ev.preMeasureIteration t.name i) else none)
        (doAwait env (some (Ev.preMeasure t.name i)) c)).running = true := by
      simp [hr]
    obtain ⟨d, hd, htr, htot, hda, hdr⟩ := ih (i + 1)
      (doAwait env
        (if cfg.hasPreMeasureIteration then some (Ev.preMeasureIteration t.name i) else none)
        (doAwait env (some (Ev.preMeasure t.name i)) c)) ha2 hr2
    refine ⟨d, ?_, ?_, ?_, hda, hdr⟩
    · rw [runPreMeasureLoop]
      simp only [ha, hr, Bool.not_true, Bool.or_false, if_false, hf, ha2, hr2]
      simpa using hd
    · rw [htr]
      simp [preEvs]
    · simpa using htot

/-- Closed form of the measured loop on an undisturbed run: the loop
emits exactly the `measEvs` events and accumulates the normalized `ms`
values into `totalms`. -/
theorem runCaseLoop_ok (cfg : Config) (env : Env) (idx : Nat) (t : BenchmarkCase)
    (hc : ∀ k, env.cancelAt k = false)
    (hf : ∀ j, env.measureFail idx j = false) :
    ∀ fuel i c, c.abort = false → c.running = true →
      c.totalms = totalAfter env idx t i →
      ∃ d, runCaseLoop cfg env idx t i fuel c = .ok d ∧
        d.trace = c.trace ++ measEvs cfg env idx t i fuel ∧
        d.totalms = totalAfter env idx t (i + fuel) ∧
        d.abort = false ∧ d.running = true := by
  intro fuel
  induction fuel with
  | zero =>
    intro i c ha hr htot
    exact ⟨c, rfl, by simp [measEvs], by simpa using htot, ha, hr⟩
  | succ fuel ih =>
    intro i c ha hr htot
    obtain ⟨d, hd, htr, htotd, hda, hdr⟩ := ih (i + 1)
      (doAwait env (if t.hasPostMeasure then some (.postMeasure t.name i) else none)
        (doAwait env
          (if cfg.hasIteration then
            some (.iteration t.name i (msOf env idx t i)
              ((c.totalms.add (msOf env idx t i)).div (.num ((i : ℚ) + 1))))
           else none)
          { doAwait env (some (.measure t.name i)) c with
            totalms := (doAwait env (some (.measure t.name i)) c).totalms.add
              (msOf env idx t i) }))
      (by simp [hc, ha]) (by simp [hr]) (by simp [htot, totalAfter])
    have hmean : (c.totalms.add (msOf env idx t i)).div (Js.num ((i : ℚ) + 1)) =
        meanAt env idx t i := by
      rw [htot]; rfl
    refine ⟨d, ?_, ?_, ?_, hda, hdr⟩
    · rw [runCaseLoop]
      simpa [hc, ha, hr, hf, msOf] using hd
    · rw [htr]
      simp [measEvs, hmean, List.append_assoc]
    · rw [htotd]
      congr 1
      omega

/-- Closed form of `runCase` on an undisturbed run starting with a zeroed
accumulator: the measured loop's events followed by the `cycle` callback
(when configured) with `mean = totalms / iterations`, and `totalms`
reset to zero. -/
theorem runCase_ok (cfg : Config) (env : Env) (idx : Nat) (t : BenchmarkCase)
    (hc : ∀ k, env.cancelAt k = false)
    (hf : ∀ j, env.measureFail idx j = false)
    (c : RunCtx) (ha : c.abort = false) (hr : c.running = true)
    (htot : c.totalms = Js.num 0) :
    ∃ d, runCase cfg env idx t c = .ok d ∧
      d.trace = c.trace ++ measEvs cfg env idx t 0 cfg.iterations.toNat ++
        (if cfg.hasCycle then [Ev.cycle t.name (cycleMean cfg env idx t)] else []) ∧
      d.totalms = Js.num 0 ∧ d.abort = false ∧ d.running = true := by
  obtain ⟨d1, hd1, htr1, htot1, hda1, hdr1⟩ :=
    runCaseLoop_ok cfg env idx t hc hf cfg.iterations.toNat 0 c ha hr
      (by rw [htot]; rfl)
  refine ⟨{ doAwait env
      (if cfg.hasCycle then
        some (.cycle t.name (d1.totalms.div (.num (cfg.iterations : ℚ))))
       else none) d1 with totalms := Js.num 0 }, ?_, ?_, rfl, by simp [hc, hda1],
    by simp [hdr1]⟩
  · rw [runCase, hd1]
    simp [hdr1, hda1]
  · have hm : d1.totalms.div (.num (cfg.iterations : ℚ)) = cycleMean cfg env idx t := by
      rw [htot1, cycleMean]
      simp
    simp [htr1, hm, List.append_assoc]

/-- Closed form of `runPreMeasure` on an undisturbed run: the pre-measure
events when the hook is present, nothing otherwise; `totalms` and the
flags are untouched. -/
theorem runPreMeasure_ok (cfg : Config) (env : Env) (idx : Nat) (t : BenchmarkCase)
    (hc : ∀ k, env.cancelAt k = false)
    (hf : ∀ j, env.preMeasureFail idx j = false)
    (c : RunCtx) (ha : c.abort = false) (hr : c.running = true) :
    ∃ d, runPreMeasure cfg env idx t c = .ok d ∧
      d.trace = c.trace ++
        (if t.hasPreMeasure then preEvs cfg t 0 cfg.pmBound.toNat else []) ∧
      d.totalms = c.totalms ∧ d.abort = false ∧ d.running = true := by
  by_cases hp : t.hasPreMeasure
  · obtain ⟨d, hd, htr, htot, hda, hdr⟩ :=
      runPreMeasureLoop_ok cfg env idx t hc hf cfg.pmBound.toNat 0 c ha hr
    exact ⟨d, by rw [runPreMeasure]; simp [hp, hd], by simp [hp, htr], htot, hda, hdr⟩
  · exact ⟨c, by rw [runPreMeasure]; simp [hp], by simp [hp], rfl, ha, hr⟩

/-- Closed form of the per-case loop of `run` on an undisturbed run: the
cases' events in registration order, with the accumulator zeroed between
cases. -/
theorem runTests_ok (cfg : Config) (env : Env)
    (hc : ∀ k, env.cancelAt k = false)
    (hmf : ∀ idx j, env.measureFail idx j = false)
    (hpf : ∀ idx j, env.preMeasureFail idx j = false) :
    ∀ tests idx c, c.abort = false → c.running = true → c.totalms = Js.num 0 →
      ∃ d, runTests cfg env idx tests c = .ok d ∧
        d.trace = c.trace ++ casesEvs cfg env idx tests ∧
        d.totalms = Js.num 0 ∧ d.abort = false ∧ d.running = true := by
  intro tests
  induction tests with
  | nil =>
    intro idx c ha hr htot
    exact ⟨c, rfl, by simp [casesEvs], htot, ha, hr⟩
  | cons t rest ih =>
    intro idx c ha hr htot
    obtain ⟨d1, hd1, htr1, htot1, hda1, hdr1⟩ :=
      runPreMeasure_ok cfg env idx t hc (hpf idx)
        (doAwait env (if t.hasBefore then some (.before t.name) else none) c)
        (by simp [hc, ha]) (by simp [hr])
    obtain ⟨d2, hd2, htr2, htot2, hda2, hdr2⟩ :=
      runCase_ok cfg env idx t hc (hmf idx) (doAwait env (some .sleepEv) d1)
        (by simp [hc, hda1]) (by simp [hdr1]) (by simp [htot1, htot])
    obtain ⟨d3, hd3, htr3, htot3, hda3, hdr3⟩ := ih (idx + 1)
      (doAwait env (some .sleepEv)
        (doAwait env (if t.hasAfter then some (.after t.name) else none) d2))
      (by simp [hc, hda2]) (by simp [hdr2]) (by simp [htot2])
    refine ⟨d3, ?_, ?_, htot3, hda3, hdr3⟩
    · simp only [runTests, hd1, hd2, hd3]
    · rw [htr3]
      simp only [doAwait_trace, htr2, htr1, doAwait_trace]
      simp [casesEvs, caseEvs, List.append_assoc]

/-- Closed form of `run` on an undisturbed invocation of a non-running
instance: it resolves, emits exactly the `runEvs` events, and ends in the
reset state. -/
theorem run_ok (cfg : Config) (env : Env) (tests : List BenchmarkCase)
    (hc : ∀ k, env.cancelAt k = false)
    (hmf : ∀ idx j, env.measureFail idx j = false)
    (hpf : ∀ idx j, env.preMeasureFail idx j = false)
    (c : RunCtx) (hr : c.running = false) (ha : c.abort = false)
    (htot : c.totalms = Js.num 0) :
    ∃ d, run cfg env tests c = .ok d ∧
      d.trace = c.trace ++ runEvs cfg env tests ∧
      d.totalms = Js.num 0 ∧ d.abort = false ∧ d.running = false := by
  obtain ⟨d1, hd1, htr1, htot1, hda1, hdr1⟩ :=
    runTests_ok cfg env hc hmf hpf tests 0
      (doAwait env (if cfg.hasBeforeAll then some .beforeAll else none)
        { c with running := true })
      (by simp [hc, ha]) (by simp) (by simp [htot])
  refine ⟨reset (doAwait env (if cfg.hasAfterAll then some .afterAll else none) d1),
    ?_, ?_, rfl, rfl, rfl⟩
  · rw [run]
    simp only [hr, Bool.false_eq_true, if_false]
    rw [hd1]
  · rw [reset_trace, doAwait_trace, htr1]
    simp [runEvs, List.append_assoc]

/-- A rejection inside the pre-measure loop leaves `running` set and a
trace ending at the rejected `preMeasure` call. -/
theorem runPreMeasureLoop_err (cfg : Config) (env : Env) (idx : Nat) (t : BenchmarkCase) :
    ∀ fuel i c d, runPreMeasureLoop cfg env idx t i fuel c = .err d →
      d.running = true ∧ ∃ pre j, d.trace = pre ++ [Ev.preMeasure t.name j] := by
  intro fuel
  induction fuel with
  | zero =>
    intro i c d h
    simp [runPreMeasureLoop] at h
  | succ fuel ih =>
    intro i c d h
    rw [runPreMeasureLoop] at h
    by_cases hcond : (c.abort || !c.running) = true
    · rw [if_pos hcond] at h
      simp at h
    · rw [if_neg hcond] at h
      have hr : c.running = true := by
        simp only [Bool.or_eq_true, not_or, Bool.not_eq_true] at hcond
        simpa using hcond.2
      by_cases hfail : env.preMeasureFail idx i = true
      · rw [if_pos hfail] at h
        obtain rfl : doAwait env (some (Ev.preMeasure t.name i)) c = d := by
          cases h; rfl
        exact ⟨by simp [hr], c.trace, i, by simp⟩
      · rw [if_neg hfail] at h
        by_cases hcond2 : ((doAwait env
            (if cfg.hasPreMeasureIteration then some (Ev.preMeasureIteration t.name i) else none)
            (doAwait env (some (Ev.preMeasure t.name i)) c)).abort ||
            !(doAwait env
              (if cfg.hasPreMeasureIteration then some (Ev.preMeasureIteration t.name i) else none)
              (doAwait env (some (Ev.preMeasure t.name i)) c)).running) = true
        · rw [if_pos hcond2] at h
          simp at h
        · rw [if_neg hcond2] at h
          exact ih _ _ _ h

/-- A rejection inside the measured loop leaves `running` set and a trace
ending at the rejected `measure` call. -/
theorem runCaseLoop_err (cfg : Config) (env : Env) (idx : Nat) (t : BenchmarkCase) :
    ∀ fuel i c d, runCaseLoop cfg env idx t i fuel c = .err d →
      d.running = true ∧ ∃ pre j, d.trace = pre ++ [Ev.measure t.name j] := by
  intro fuel
  induction fuel with
  | zero =>
    intro i c d h
    simp [runCaseLoop] at h
  | succ fuel ih =>
    intro i c d h
    rw [runCaseLoop] at h
    by_cases hcond : (c.abort || !c.running) = true
    · rw [if_pos hcond] at h
      simp at h
    · rw [if_neg hcond] at h
      have hr : c.running = true := by
        simp only [Bool.or_eq_true, not_or, Bool.not_eq_true] at hcond
        simpa using hcond.2
      by_cases hfail : env.measureFail idx i = true
      · rw [if_pos hfail] at h
        obtain rfl : doAwait env (some (Ev.measure t.name i)) c = d := by
          cases h; rfl
        exact ⟨by simp [hr], c.trace, i, by simp⟩
      · rw [if_neg hfail] at h
        by_cases hcond1 : ((doAwait env (some (Ev.measure t.name i)) c).abort ||
            !(doAwait env (some (Ev.measure t.name i)) c).running) = true
        · rw [if_pos hcond1] at h
          simp at h
        · rw [if_neg hcond1] at h
          simp only [] at h
          split at h <;> (split at h <;> first | exact ih _ _ _ h | simp at h)

/-- A rejection surfacing from `runCase` leaves `running` set and a trace
ending at the rejected `measure` call. -/
theorem runCase_err (cfg : Config) (env : Env) (idx : Nat) (t : BenchmarkCase)
    (c d : RunCtx) (h : runCase cfg env idx t c = .err d) :
    d.running = true ∧ ∃ pre j, d.trace = pre ++ [Ev.measure t.name j] := by
  rw [runCase] at h
  rcases hl : runCaseLoop cfg env idx t 0 cfg.iterations.toNat c with c1 | c1
  · rw [hl] at h
    simp only [] at h
    split at h <;> simp at h
  · rw [hl] at h
    simp only [] at h
    injection h with h2
    subst h2
    exact runCaseLoop_err cfg env idx t _ _ _ _ hl

/-- A rejection surfacing from `runPreMeasure` leaves `running` set and a
trace ending at the rejected `preMeasure` call. -/
theorem runPreMeasure_err (cfg : Config) (env : Env) (idx : Nat) (t : BenchmarkCase)
    (c d : RunCtx) (h : runPreMeasure cfg env idx t c = .err d) :
    d.running = true ∧ ∃ pre j, d.trace = pre ++ [Ev.preMeasure t.name j] := by
  rw [runPreMeasure] at h
  split at h
  · simp at h
  · exact runPreMeasureLoop_err cfg env idx t _ _ _ _ h

/-- A rejection surfacing from the case loop of `run` leaves `running`
set and a trace ending at the rejected call. -/
theorem runTests_err (cfg : Config) (env : Env) :
    ∀ tests idx c d, runTests cfg env idx tests c = .err d →
      d.running = true ∧ ∃ pre,
        (∃ nm j, d.trace = pre ++ [Ev.measure nm j]) ∨
        (∃ nm j, d.trace = pre ++ [Ev.preMeasure nm j]) := by
  intro tests
  induction tests with
  | nil =>
    intro idx c d h
    simp [runTests] at h
  | cons t rest ih =>
    intro idx c d h
    rw [runTests] at h
    simp only [] at h
    rcases hpm : runPreMeasure cfg env idx t
        (doAwait env (if t.hasBefore then some (.before t.name) else none) c) with c2 | c2
    · rw [hpm] at h
      simp only [] at h
      rcases hcase : runCase cfg env idx t (doAwait env (some .sleepEv) c2) with c4 | c4
      · rw [hcase] at h
        simp only [] at h
        exact ih _ _ _ h
      · rw [hcase] at h
        injection h with h2
        subst h2
        obtain ⟨hr, pre, j, htr⟩ := runCase_err cfg env idx t _ _ hcase
        exact ⟨hr, pre, Or.inl ⟨t.name, j, htr⟩⟩
    · rw [hpm] at h
      injection h with h2
      subst h2
      obtain ⟨hr, pre, j, htr⟩ := runPreMeasure_err cfg env idx t _ _ hpm
      exact ⟨hr, pre, Or.inr ⟨t.name, j, htr⟩⟩

/-- An uncaught rejection surfacing from `run` leaves the `running` flag
still set — the final `reset()` never executes — and the trace ends at
the rejected `measure` / `preMeasure` call: nothing afterwards runs. -/
theorem run_err (cfg : Config) (env : Env) (tests : List BenchmarkCase)
    (c d : RunCtx) (h : run cfg env tests c = .err d) :
    d.running = true ∧ ∃ pre,
      (∃ nm j, d.trace = pre ++ [Ev.measure nm j]) ∨
      (∃ nm j, d.trace = pre ++ [Ev.preMeasure nm j]) := by
  rw [run] at h
  by_cases hr : c.running = true
  · rw [if_pos hr] at h
    simp at h
  · rw [if_neg hr] at h
    simp only [] at h
    rcases ht : runTests cfg env 0 tests
        (doAwait env (if cfg.hasBeforeAll then some .beforeAll else none)
          { c with running := true }) with c2 | c2
    · rw [ht] at h
      simp at h
    · rw [ht] at h
      injection h with h2
      subst h2
      exact runTests_err cfg env tests 0 _ _ ht

/-! ### Event classification -/

/-- The loop index of a `measure` invocation. -/
def Ev.measureIdx : Ev → Option Nat
  | .measure _ i => some i
  | _ => none

/-- The loop index reported to the `iteration` callback. -/
def Ev.iterIdx : Ev → Option Nat
  | .iteration _ i _ _ => some i
  | _ => none

/-- The loop index of a `preMeasure` invocation. -/
def Ev.pmIdx : Ev → Option Nat
  | .preMeasure _ i => some i
  | _ => none

/-- The loop index reported to the `preMeasureIteration` callback. -/
def Ev.pmIterIdx : Ev → Option Nat
  | .preMeasureIteration _ i => some i
  | _ => none

/-- The name/mean payload of a `cycle` invocation. -/
def Ev.cycleOf : Ev → Option (String × Js)
  | .cycle nm m => some (nm, m)
  | _ => none

/-- Whether the event is a `measure` invocation. -/
def Ev.isMeasureEv : Ev → Bool
  | .measure _ _ => true
  | _ => false

/-- Whether the event is an `iteration` callback invocation. -/
def Ev.isIterationEv : Ev → Bool
  | .iteration _ _ _ _ => true
  | _ => false

/-- Whether the event is a `cycle` callback invocation for case `nm`. -/
def Ev.isCycleFor (nm : String) : Ev → Bool
  | .cycle n _ => n == nm
  | _ => false

/-- Whether the event is a `before` hook invocation for case `nm`. -/
def Ev.isBeforeFor (nm : String) : Ev → Bool
  | .before n => n == nm
  | _ => false

/-- Whether the event is an `after` hook invocation for case `nm`. -/
def Ev.isAfterFor (nm : String) : Ev → Bool
  | .after n => n == nm
  | _ => false

/-- Whether the event is a `measure` invocation for case `nm`. -/
def Ev.isMeasureFor (nm : String) : Ev → Bool
  | .measure n _ => n == nm
  | _ => false

/-! ### Index extraction from the closed-form segments -/

/-- The `measure` calls of the measured loop are `i, i+1, ...` in
increasing order. -/
theorem measEvs_measureIdx (cfg : Config) (env : Env) (idx : Nat) (t : BenchmarkCase) :
    ∀ fuel i, (measEvs cfg env idx t i fuel).filterMap Ev.measureIdx = List.range' i fuel := by
  intro fuel
  induction fuel with
  | zero => intro i; simp [measEvs]
  | succ fuel ih =>
    intro i
    cases hI : cfg.hasIteration <;> cases hP : t.hasPostMeasure <;>
      simp [measEvs, hI, hP, ih, List.range'_succ, Ev.measureIdx, Ev.iterIdx]

/-- The `iteration` callback invocations of the measured loop are
`i, i+1, ...` in increasing order (when the callback is configured). -/
theorem measEvs_iterIdx (cfg : Config) (env : Env) (idx : Nat) (t : BenchmarkCase)
    (hI : cfg.hasIteration = true) :
    ∀ fuel i, (measEvs cfg env idx t i fuel).filterMap Ev.iterIdx = List.range' i fuel := by
  intro fuel
  induction fuel with
  | zero => intro i; simp [measEvs]
  | succ fuel ih =>
    intro i
    cases hP : t.hasPostMeasure <;>
      simp [measEvs, hI, hP, ih, List.range'_succ, Ev.measureIdx, Ev.iterIdx]

/-- The `preMeasure` calls of the pre-measure loop are `i, i+1, ...` in
increasing order. -/
theorem preEvs_pmIdx (cfg : Config) (t : BenchmarkCase) :
    ∀ fuel i, (preEvs cfg t i fuel).filterMap Ev.pmIdx = List.range' i fuel := by
  intro fuel
  induction fuel with
  | zero => intro i; simp [preEvs]
  | succ fuel ih =>
    intro i
    cases hI : cfg.hasPreMeasureIteration <;>
      simp [preEvs, hI, ih, List.range'_succ, Ev.pmIdx, Ev.pmIterIdx]

/-- The `preMeasureIteration` callback invocations of the pre-measure
loop are `i, i+1, ...` in increasing order (when configured). -/
theorem preEvs_pmIterIdx (cfg : Config) (t : BenchmarkCase)
    (hI : cfg.hasPreMeasureIteration = true) :
    ∀ fuel i, (preEvs cfg t i fuel).filterMap Ev.pmIterIdx = List.range' i fuel := by
  intro fuel
  induction fuel with
  | zero => intro i; simp [preEvs]
  | succ fuel ih =>
    intro i
    simp [preEvs, hI, ih, List.range'_succ, Ev.pmIdx, Ev.pmIterIdx]

/-- Every event of the pre-measure loop is a `preMeasure` call or a
`preMeasureIteration` callback of this case. -/
theorem preEvs_shape (cfg : Config) (t : BenchmarkCase) :
    ∀ fuel i e, e ∈ preEvs cfg t i fuel →
      (∃ j, e = Ev.preMeasure t.name j) ∨ (∃ j, e = Ev.preMeasureIteration t.name j) := by
  intro fuel
  induction fuel with
  | zero => intro i e he; simp [preEvs] at he
  | succ fuel ih =>
    intro i e he
    rw [preEvs] at he
    rcases List.mem_cons.mp he with rfl | he2
    · exact Or.inl ⟨i, rfl⟩
    · rcases List.mem_append.mp he2 with he3 | he4
      · cases hI : cfg.hasPreMeasureIteration <;> rw [hI] at he3 <;> simp at he3
        exact Or.inr ⟨i, he3⟩
      · exact ih _ _ he4

/-- A zeroed accumulator stays zeroed through the pre-measure loop (the
loop never touches `totalms` except to clear it in `reset`). -/
theorem runPreMeasureLoop_keepZero (cfg : Config) (env : Env) (idx : Nat)
    (t : BenchmarkCase) :
    ∀ fuel i c, c.totalms = Js.num 0 →
      ((runPreMeasureLoop cfg env idx t i fuel c).ctx).totalms = Js.num 0 := by
  intro fuel
  induction fuel with
  | zero => intro i c h; simpa [runPreMeasureLoop] using h
  | succ fuel ih =>
    intro i c h
    rw [runPreMeasureLoop]
    simp only []
    repeat' split
    all_goals first
      | exact ih _ _ (by simpa using h)
      | (simp; done)
      | simpa using h

/-- A zeroed accumulator stays zeroed through `runPreMeasure`. -/
theorem runPreMeasure_keepZero (cfg : Config) (env : Env) (idx : Nat)
    (t : BenchmarkCase) (c : RunCtx) (h : c.totalms = Js.num 0) :
    ((runPreMeasure cfg env idx t c).ctx).totalms = Js.num 0 := by
  rw [runPreMeasure]
  split
  · simpa using h
  · exact runPreMeasureLoop_keepZero cfg env idx t _ _ _ h

/-- C5: a reentrant `run()` while `running` is already set returns
immediately: the result is `ok` with the state (and the trace — so no
hook, case callback, `beforeAll` or `afterAll` invocation) completely
unchanged, exactly the `if (running) return` guard. -/
theorem c5_reentrant_run_noop (cfg : Config) (env : Env) (tests : List BenchmarkCase)
    (c : RunCtx) (h : c.running = true) : run cfg env tests c = .ok c := by
  rw [run, if_pos h]

/-- Environment with no cancellation, unit durations and no rejections. -/
def envQuiet : Env := ⟨fun _ => false, fun _ _ => 1, fun _ _ => false, fun _ _ => false⟩

/-- Witness for C5 at a concrete input: a running state is returned
untouched. -/
theorem c5_reentrant_run_noop_witness :
    run { iterations := 5 } envQuiet [⟨"a", none, true, true, true, true⟩]
      ⟨Js.num 7, false, true, 3, [Ev.sleepEv]⟩ =
      .ok ⟨Js.num 7, false, true, 3, [Ev.sleepEv]⟩ :=
  c5_reentrant_run_noop _ _ _ _ rfl

/-- C10: whenever `run()` of a non-running instance resolves — whether the
run completed or was cancelled at any point — the final state has
`running = false`, `abort = false` and `totalms = 0`, and the `afterAll`
callback (when configured) is the last event before that final `reset()`. -/
theorem c10_resolved_run_is_reset (cfg : Config) (env : Env)
    (tests : List BenchmarkCase) (c : RunCtx) (hr : c.running = false)
    (hok : (run cfg env tests c).isOk = true) :
    (run cfg env tests c).ctx.running = false ∧
    (run cfg env tests c).ctx.abort = false ∧
    (run cfg env tests c).ctx.totalms = Js.num 0 ∧
    (cfg.hasAfterAll = true →
      ∃ pre, (run cfg env tests c).ctx.trace = pre ++ [Ev.afterAll]) := by
  rcases ht : runTests cfg env 0 tests
      (doAwait env (if cfg.hasBeforeAll then some .beforeAll else none)
        { c with running := true }) with c2 | c2
  · have hrun : run cfg env tests c =
        .ok (reset (doAwait env (if cfg.hasAfterAll then some .afterAll else none) c2)) := by
      rw [run, if_neg (by simp [hr])]
      simp only []
      rw [ht]
    rw [hrun]
    refine ⟨rfl, rfl, rfl, fun hA => ⟨c2.trace, ?_⟩⟩
    simp [hA]
  · have hrun : run cfg env tests c = .err c2 := by
      rw [run, if_neg (by simp [hr])]
      simp only []
      rw [ht]
    rw [hrun] at hok
    simp at hok

/-- Witness for C10 at a concrete input: an empty-registry run with
`afterAll` configured resolves into the reset state. -/
theorem c10_resolved_run_is_reset_witness :
    (run { iterations := 2, hasAfterAll := true } envQuiet [] ctx0).ctx.running = false ∧
    (run { iterations := 2, hasAfterAll := true } envQuiet [] ctx0).ctx.abort = false ∧
    (run { iterations := 2, hasAfterAll := true } envQuiet [] ctx0).ctx.totalms = Js.num 0 ∧
    (({ iterations := 2, hasAfterAll := true } : Config).hasAfterAll = true →
      ∃ pre, (run { iterations := 2, hasAfterAll := true } envQuiet [] ctx0).ctx.trace =
        pre ++ [Ev.afterAll]) :=
  c10_resolved_run_is_reset _ envQuiet [] ctx0 rfl (by decide)

/-- C4: when the measured loop of a case finishes with `running` still
set and `abort` clear, `runCase` invokes the `cycle` callback exactly
once, with `mean = totalms / iterations`, and then zeroes `totalms`;
the accumulator then stays zero through any following awaited hook and
through the next case's pre-measure phase, i.e. until the next measured
loop starts accumulating. -/
theorem c4_cycle_mean_and_reset (cfg : Config) (env : Env) (idx : Nat)
    (t : BenchmarkCase) (c : RunCtx)
    (hok : (runCaseLoop cfg env idx t 0 cfg.iterations.toNat c).isOk = true)
    (hr : (runCaseLoop cfg env idx t 0 cfg.iterations.toNat c).ctx.running = true)
    (ha : (runCaseLoop cfg env idx t 0 cfg.iterations.toNat c).ctx.abort = false)
    (hcy : cfg.hasCycle = true) :
    (runCase cfg env idx t c).isOk = true ∧
    (runCase cfg env idx t c).ctx.trace =
      (runCaseLoop cfg env idx t 0 cfg.iterations.toNat c).ctx.trace ++
        [Ev.cycle t.name
          (Js.div (runCaseLoop cfg env idx t 0 cfg.iterations.toNat c).ctx.totalms
            (Js.num (cfg.iterations : ℚ)))] ∧
    (runCase cfg env idx t c).ctx.totalms = Js.num 0 ∧
    (∀ (idx2 : Nat) (t2 : BenchmarkCase) (d : RunCtx), d.totalms = Js.num 0 →
      ((runPreMeasure cfg env idx2 t2 d).ctx).totalms = Js.num 0) ∧
    (∀ (ev : Option Ev) (d : RunCtx), (doAwait env ev d).totalms = d.totalms) := by
  rcases hl : runCaseLoop cfg env idx t 0 cfg.iterations.toNat c with d | d
  · have hr2 : d.running = true := by simpa [hl] using hr
    have ha2 : d.abort = false := by simpa [hl] using ha
    refine ⟨?_, ?_, ?_,
      fun idx2 t2 d2 hz => runPreMeasure_keepZero cfg env idx2 t2 d2 hz,
      fun ev d2 => rfl⟩
    · rw [runCase, hl]
      simp [hr2, ha2, hcy]
    · rw [runCase, hl]
      simp [hl, hr2, ha2, hcy]
    · rw [runCase, hl]
      simp [hr2, ha2, hcy]
  · simp [hl] at hok

/-- Witness for C4 at a concrete input: one measured iteration of unit
duration, followed by a `cycle` invocation with mean `1/1` and a zeroed
accumulator. -/
theorem c4_cycle_mean_and_reset_witness :
    (runCase { iterations := 1, hasCycle := true } envQuiet 0
        ⟨"a", none, false, false, false, false⟩ ⟨Js.num 0, false, true, 0, []⟩).isOk = true ∧
    (runCase { iterations := 1, hasCycle := true } envQuiet 0
        ⟨"a", none, false, false, false, false⟩ ⟨Js.num 0, false, true, 0, []⟩).ctx.trace =
      (runCaseLoop { iterations := 1, hasCycle := true } envQuiet 0
          ⟨"a", none, false, false, false, false⟩ 0
          ({ iterations := 1, hasCycle := true } : Config).iterations.toNat
          ⟨Js.num 0, false, true, 0, []⟩).ctx.trace ++
        [Ev.cycle "a"
          (Js.div (runCaseLoop { iterations := 1, hasCycle := true } envQuiet 0
              ⟨"a", none, false, false, false, false⟩ 0
              ({ iterations := 1, hasCycle := true } : Config).iterations.toNat
              ⟨Js.num 0, false, true, 0, []⟩).ctx.totalms
            (Js.num ((({ iterations := 1, hasCycle := true } : Config).iterations : ℚ))))] ∧
    (runCase { iterations := 1, hasCycle := true } envQuiet 0
        ⟨"a", none, false, false, false, false⟩ ⟨Js.num 0, false, true, 0, []⟩).ctx.totalms =
      Js.num 0 ∧
    (∀ (idx2 : Nat) (t2 : BenchmarkCase) (d : RunCtx), d.totalms = Js.num 0 →
      ((runPreMeasure { iterations := 1, hasCycle := true } envQuiet idx2 t2 d).ctx).totalms =
        Js.num 0) ∧
    (∀ (ev : Option Ev) (d : RunCtx), (doAwait envQuiet ev d).totalms = d.totalms) :=
  c4_cycle_mean_and_reset _ envQuiet 0 _ _ (by decide) (by decide) (by decide) rfl

/-- C1: on an undisturbed measured loop (no abort delivered, no
rejection) with the `iteration` callback configured and a zeroed
accumulator, the loop resolves and its events are exactly
`measEvs … 0 N`: for each `i < N` a `measure(i)` await followed by an
`iteration(name, {i, ms, mean})` callback where `ms = dur(i)/(bulk ?? 1)`
(see `msOf`) and `mean = totalms/(i+1)` over the accumulated normalized
values (see `meanAt`, `totalAfter`); the `measure` awaits and the
`iteration` invocations each carry indices `0, 1, …, N-1` in increasing
order, so the callback fires exactly `N` times. -/
theorem c1_measured_loop_stats (cfg : Config) (env : Env) (idx : Nat)
    (t : BenchmarkCase) (c : RunCtx)
    (hc : ∀ k, env.cancelAt k = false)
    (hf : ∀ j, env.measureFail idx j = false)
    (hI : cfg.hasIteration = true)
    (ha : c.abort = false) (hr : c.running = true) (htot : c.totalms = Js.num 0) :
    ∃ d, runCaseLoop cfg env idx t 0 cfg.iterations.toNat c = .ok d ∧
      d.trace = c.trace ++ measEvs cfg env idx t 0 cfg.iterations.toNat ∧
      d.totalms = totalAfter env idx t cfg.iterations.toNat ∧
      (measEvs cfg env idx t 0 cfg.iterations.toNat).filterMap Ev.measureIdx =
        List.range cfg.iterations.toNat ∧
      (measEvs cfg env idx t 0 cfg.iterations.toNat).filterMap Ev.iterIdx =
        List.range cfg.iterations.toNat := by
  obtain ⟨d, hd, htr, htot2, -, -⟩ :=
    runCaseLoop_ok cfg env idx t hc hf cfg.iterations.toNat 0 c ha hr
      (by rw [htot]; rfl)
  refine ⟨d, hd, htr, by simpa using htot2, ?_, ?_⟩
  · rw [measEvs_measureIdx, List.range_eq_range']
  · rw [measEvs_iterIdx cfg env idx t hI, List.range_eq_range']

/-- Witness for C1 at a concrete input: two iterations with durations 1
and 3 and bulk factor 2. -/
theorem c1_measured_loop_stats_witness :
    ∃ d, runCaseLoop { iterations := 2, hasIteration := true }
        ⟨fun _ => false, fun _ i => if i = 0 then 1 else 3, fun _ _ => false, fun _ _ => false⟩
        0 ⟨"a", some 2, false, false, false, false⟩ 0
        ({ iterations := 2, hasIteration := true } : Config).iterations.toNat
        ⟨Js.num 0, false, true, 0, []⟩ = .ok d ∧
      d.trace = [] ++ measEvs { iterations := 2, hasIteration := true }
        ⟨fun _ => false, fun _ i => if i = 0 then 1 else 3, fun _ _ => false, fun _ _ => false⟩
        0 ⟨"a", some 2, false, false, false, false⟩ 0
        ({ iterations := 2, hasIteration := true } : Config).iterations.toNat ∧
      d.totalms = totalAfter
        ⟨fun _ => false, fun _ i => if i = 0 then 1 else 3, fun _ _ => false, fun _ _ => false⟩
        0 ⟨"a", some 2, false, false, false, false⟩
        ({ iterations := 2, hasIteration := true } : Config).iterations.toNat ∧
      (measEvs { iterations := 2, hasIteration := true }
        ⟨fun _ => false, fun _ i => if i = 0 then 1 else 3, fun _ _ => false, fun _ _ => false⟩
        0 ⟨"a", some 2, false, false, false, false⟩ 0
        ({ iterations := 2, hasIteration := true } : Config).iterations.toNat).filterMap
          Ev.measureIdx =
        List.range ({ iterations := 2, hasIteration := true } : Config).iterations.toNat ∧
      (measEvs { iterations := 2, hasIteration := true }
        ⟨fun _ => false, fun _ i => if i = 0 then 1 else 3, fun _ _ => false, fun _ _ => false⟩
        0 ⟨"a", some 2, false, false, false, false⟩ 0
        ({ iterations := 2, hasIteration := true } : Config).iterations.toNat).filterMap
          Ev.iterIdx =
        List.range ({ iterations := 2, hasIteration := true } : Config).iterations.toNat :=
  c1_measured_loop_stats _ _ 0 _ _ (fun _ => rfl) (fun _ => rfl) rfl rfl rfl rfl

/-- C6: on a run with no cancellation and no rejection, `run()` resolves
and its trace is exactly `runEvs`: the `beforeAll` callback strictly
first, then the cases in registration order — each case contributing its
`before` hook, pre-measure phase, delay, measured loop, `cycle`, `after`
hook and trailing delay as one contiguous block (`caseEvs`), so a case's
`after` hook and following delay always precede the next case's `before`
hook — and the `afterAll` callback strictly last.  The trace is a single
sequential interleaving-free list by construction of the engine. -/
theorem c6_sequential_ordering (cfg : Config) (env : Env)
    (tests : List BenchmarkCase)
    (hc : ∀ k, env.cancelAt k = false)
    (hmf : ∀ idx j, env.measureFail idx j = false)
    (hpf : ∀ idx j, env.preMeasureFail idx j = false)
    (c : RunCtx) (hr : c.running = false) (ha : c.abort = false)
    (htot : c.totalms = Js.num 0) :
    ∃ d, run cfg env tests c = .ok d ∧ d.trace = c.trace ++ runEvs cfg env tests := by
  obtain ⟨d, hd, htr, -, -, -⟩ := run_ok cfg env tests hc hmf hpf c hr ha htot
  exact ⟨d, hd, htr⟩

/-- Configuration with one iteration, one pre-measure iteration and every
callback present (used by witnesses). -/
def cfgFull : Config :=
  { iterations := 1, preMeasureIterations := some 1, hasCycle := true,
    hasIteration := true, hasPreMeasureIteration := true, hasBeforeAll := true,
    hasAfterAll := true }

/-- Witness for C6 at a concrete input: a two-case run with all hooks
present. -/
theorem c6_sequential_ordering_witness :
    ∃ d, run cfgFull envQuiet
        [⟨"a", none, true, true, true, true⟩, ⟨"b", none, true, true, true, true⟩]
        ctx0 = .ok d ∧
      d.trace = [] ++ runEvs cfgFull envQuiet
        [⟨"a", none, true, true, true, true⟩, ⟨"b", none, true, true, true, true⟩] :=
  c6_sequential_ordering cfgFull envQuiet _ (fun _ => rfl) (fun _ _ => rfl) (fun _ _ => rfl)
    ctx0 rfl rfl rfl

/-- No event of the pre-measure loop is a `measure` await, an `iteration`
callback, or a `cycle` callback: the warm-up contributes nothing to the
measured statistics stream. -/
theorem preEvs_not_measured (cfg : Config) (t : BenchmarkCase) (fuel i : Nat) :
    ∀ e ∈ preEvs cfg t i fuel,
      e.isMeasureEv = false ∧ e.isIterationEv = false ∧ e.cycleOf = none := by
  intro e he
  rcases preEvs_shape cfg t fuel i e he with ⟨j, rfl⟩ | ⟨j, rfl⟩ <;>
    simp [Ev.isMeasureEv, Ev.isIterationEv, Ev.cycleOf]

/-- C7: on an undisturbed run, a case with a `preMeasure` hook runs the
pre-measure phase exactly `preMeasureIterations` times: for each
`i < preMeasureIterations`, `preMeasure(i)` is awaited and then the
distinct `preMeasureIteration(name, {i})` callback fires (the `preEvs`
closed form), with indices `0, …, P-1` in increasing order for both
streams; `totalms` is untouched, none of these events is a `measure`
await, `iteration` callback or `cycle` callback, and inside the case's
event block (`caseEvs`) the whole pre-measure segment sits before the
measured loop, preceded only by non-`iteration` events. -/
theorem c7_premeasure_phase (cfg : Config) (env : Env) (idx : Nat)
    (t : BenchmarkCase) (c : RunCtx)
    (hc : ∀ k, env.cancelAt k = false)
    (hf : ∀ j, env.preMeasureFail idx j = false)
    (hp : t.hasPreMeasure = true) (hpi : cfg.hasPreMeasureIteration = true)
    (ha : c.abort = false) (hr : c.running = true) :
    ∃ d, runPreMeasure cfg env idx t c = .ok d ∧
      d.trace = c.trace ++ preEvs cfg t 0 cfg.pmBound.toNat ∧
      d.totalms = c.totalms ∧
      (preEvs cfg t 0 cfg.pmBound.toNat).filterMap Ev.pmIdx =
        List.range cfg.pmBound.toNat ∧
      (preEvs cfg t 0 cfg.pmBound.toNat).filterMap Ev.pmIterIdx =
        List.range cfg.pmBound.toNat ∧
      (∀ e ∈ preEvs cfg t 0 cfg.pmBound.toNat,
        e.isMeasureEv = false ∧ e.isIterationEv = false ∧ e.cycleOf = none) ∧
      (∃ l1 l2, caseEvs cfg env idx t = l1 ++ (preEvs cfg t 0 cfg.pmBound.toNat ++ l2) ∧
        ∀ e ∈ l1, e.isIterationEv = false) := by
  obtain ⟨d, hd, htr, htot, -, -⟩ :=
    runPreMeasure_ok cfg env idx t hc hf c ha hr
  refine ⟨d, hd, by simpa [hp] using htr, htot, ?_, ?_,
    preEvs_not_measured cfg t _ _, ?_⟩
  · rw [preEvs_pmIdx, List.range_eq_range']
  · rw [preEvs_pmIterIdx cfg t hpi, List.range_eq_range']
  · refine ⟨if t.hasBefore then [Ev.before t.name] else [],
      [Ev.sleepEv] ++ measEvs cfg env idx t 0 cfg.iterations.toNat ++
        (if cfg.hasCycle then [Ev.cycle t.name (cycleMean cfg env idx t)] else []) ++
        (if t.hasAfter then [Ev.after t.name] else []) ++ [Ev.sleepEv], ?_, ?_⟩
    · simp [caseEvs, hp, List.append_assoc]
    · intro e he
      cases hb : t.hasBefore <;> rw [hb] at he <;> simp at he
      subst he
      simp [Ev.isIterationEv]

/-- Configuration with two pre-measure iterations and the
`preMeasureIteration` callback present (used by witnesses). -/
def cfgPre2 : Config :=
  { iterations := 1, preMeasureIterations := some 2, hasPreMeasureIteration := true }

/-- Witness for C7 at a concrete input: two pre-measure iterations. -/
theorem c7_premeasure_phase_witness :
    ∃ d, runPreMeasure cfgPre2 envQuiet 0
        ⟨"a", none, false, true, false, false⟩ ⟨Js.num 0, false, true, 0, []⟩ = .ok d ∧
      d.trace = [] ++ preEvs cfgPre2 ⟨"a", none, false, true, false, false⟩ 0
        cfgPre2.pmBound.toNat ∧
      d.totalms = Js.num 0 ∧
      (preEvs cfgPre2 ⟨"a", none, false, true, false, false⟩ 0
        cfgPre2.pmBound.toNat).filterMap Ev.pmIdx = List.range cfgPre2.pmBound.toNat ∧
      (preEvs cfgPre2 ⟨"a", none, false, true, false, false⟩ 0
        cfgPre2.pmBound.toNat).filterMap Ev.pmIterIdx = List.range cfgPre2.pmBound.toNat ∧
      (∀ e ∈ preEvs cfgPre2 ⟨"a", none, false, true, false, false⟩ 0 cfgPre2.pmBound.toNat,
        e.isMeasureEv = false ∧ e.isIterationEv = false ∧ e.cycleOf = none) ∧
      (∃ l1 l2, caseEvs cfgPre2 envQuiet 0 ⟨"a", none, false, true, false, false⟩ =
        l1 ++ (preEvs cfgPre2 ⟨"a", none, false, true, false, false⟩ 0
          cfgPre2.pmBound.toNat ++ l2) ∧
        ∀ e ∈ l1, e.isIterationEv = false) :=
  c7_premeasure_phase cfgPre2 envQuiet 0 _ _ (fun _ => rfl) (fun _ => rfl) rfl rfl rfl rfl

/-- The pre-measure segment contains no `measure` awaits. -/
theorem preEvs_filter_measure (cfg : Config) (t : BenchmarkCase) (fuel i : Nat) :
    (preEvs cfg t i fuel).filter Ev.isMeasureEv = [] := by
  rw [List.filter_eq_nil_iff]
  intro e he
  simp [(preEvs_not_measured cfg t fuel i e he).1]

/-- The pre-measure segment contains no `iteration` callbacks. -/
theorem preEvs_filter_iteration (cfg : Config) (t : BenchmarkCase) (fuel i : Nat) :
    (preEvs cfg t i fuel).filter Ev.isIterationEv = [] := by
  rw [List.filter_eq_nil_iff]
  intro e he
  simp [(preEvs_not_measured cfg t fuel i e he).2.1]

/-- The pre-measure segment contains no `cycle` callbacks. -/
theorem preEvs_cycleOf_nil (cfg : Config) (t : BenchmarkCase) (fuel i : Nat) :
    (preEvs cfg t i fuel).filterMap Ev.cycleOf = [] := by
  rw [List.filterMap_eq_nil_iff]
  intro e he
  exact (preEvs_not_measured cfg t fuel i e he).2.2

/-- With a zero (or negative, hence truncated-to-zero) iteration count,
the case blocks contain no `measure` awaits and no `iteration`
callbacks, while each case still contributes exactly one `cycle` with
`mean = 0 / iterations`. -/
theorem casesEvs_zeroIter (cfg : Config) (env : Env)
    (hiter : cfg.iterations.toNat = 0) (hcy : cfg.hasCycle = true) :
    ∀ tests idx,
      (casesEvs cfg env idx tests).filterMap Ev.cycleOf =
        tests.map (fun t => (t.name, Js.div (Js.num 0) (Js.num (cfg.iterations : ℚ)))) ∧
      (casesEvs cfg env idx tests).filter Ev.isMeasureEv = [] ∧
      (casesEvs cfg env idx tests).filter Ev.isIterationEv = [] := by
  intro tests
  induction tests with
  | nil => intro idx; simp [casesEvs]
  | cons t rest ih =>
    intro idx
    obtain ⟨ih1, ih2, ih3⟩ := ih (idx + 1)
    have hm : measEvs cfg env idx t 0 cfg.iterations.toNat = [] := by
      rw [hiter]; rfl
    have hcm : cycleMean cfg env idx t = Js.div (Js.num 0) (Js.num (cfg.iterations : ℚ)) := by
      rw [cycleMean, hiter]; rfl
    cases hb : t.hasBefore <;> cases hpm : t.hasPreMeasure <;> cases haf : t.hasAfter <;>
      simp [casesEvs, caseEvs, hcy, hb, hpm, haf, hm, hcm, ih1, ih2, ih3,
        preEvs_filter_measure, preEvs_filter_iteration, preEvs_cycleOf_nil,
        Ev.cycleOf, Ev.isMeasureEv, Ev.isIterationEv,
        List.filter_append, List.filterMap_append]

/-- C9: with `iterations = 0` (or negative), an undisturbed `run()` over
any registry resolves, awaits no `measure` call and fires no `iteration`
callback, yet still fires each case's `cycle` exactly once, in order,
with `mean = totalms / iterations = 0 / iterations` — which is `NaN`
when `iterations = 0` (JavaScript `0 / 0`); and neither `add` (which
appends unconditionally, validating nothing) nor `run` signals any
configuration error for such counts. -/
theorem c9_zero_iterations (cfg : Config) (env : Env)
    (tests : List BenchmarkCase) (c : RunCtx)
    (hiter : cfg.iterations ≤ 0) (hcy : cfg.hasCycle = true)
    (hc : ∀ k, env.cancelAt k = false)
    (hmf : ∀ idx j, env.measureFail idx j = false)
    (hpf : ∀ idx j, env.preMeasureFail idx j = false)
    (hr : c.running = false) (ha : c.abort = false)
    (htot : c.totalms = Js.num 0) (htr : c.trace = []) :
    ∃ d, run cfg env tests c = .ok d ∧
      d.trace.filter Ev.isMeasureEv = [] ∧
      d.trace.filter Ev.isIterationEv = [] ∧
      d.trace.filterMap Ev.cycleOf =
        tests.map (fun t => (t.name, Js.div (Js.num 0) (Js.num (cfg.iterations : ℚ)))) ∧
      (cfg.iterations = 0 → Js.div (Js.num 0) (Js.num (cfg.iterations : ℚ)) = Js.nan) ∧
      (∀ (b : Bench) (nm : String) (args : CaseSpec),
        (Bench.add b nm args).tests = b.tests ++ [args.toCase nm]) := by
  obtain ⟨d, hd, htrd, -, -, -⟩ := run_ok cfg env tests hc hmf hpf c hr ha htot
  obtain ⟨h1, h2, h3⟩ := casesEvs_zeroIter cfg env (Int.toNat_of_nonpos hiter) hcy tests 0
  refine ⟨d, hd, ?_, ?_, ?_, ?_, fun b nm args => rfl⟩
  · rw [htrd, htr]
    cases hA : cfg.hasBeforeAll <;> cases hB : cfg.hasAfterAll <;>
      simp [runEvs, hA, hB, List.filter_append, h2, Ev.isMeasureEv]
  · rw [htrd, htr]
    cases hA : cfg.hasBeforeAll <;> cases hB : cfg.hasAfterAll <;>
      simp [runEvs, hA, hB, List.filter_append, h3, Ev.isIterationEv]
  · rw [htrd, htr]
    cases hA : cfg.hasBeforeAll <;> cases hB : cfg.hasAfterAll <;>
      simp [runEvs, hA, hB, List.filterMap_append, h1, Ev.cycleOf]
  · intro h0
    rw [h0]
    simp [Js.div]

/-- Configuration with a zero iteration count (used by witnesses). -/
def cfgZero : Config := { iterations := 0, hasCycle := true, hasIteration := true }

/-- Witness for C9 at a concrete input: a one-case registry with
`iterations = 0`; the single `cycle` reports `NaN`. -/
theorem c9_zero_iterations_witness :
    ∃ d, run cfgZero envQuiet [⟨"a", none, true, false, false, true⟩] ctx0 = .ok d ∧
      d.trace.filter Ev.isMeasureEv = [] ∧
      d.trace.filter Ev.isIterationEv = [] ∧
      d.trace.filterMap Ev.cycleOf =
        [(⟨"a", none, true, false, false, true⟩ : BenchmarkCase)].map
          (fun t => (t.name, Js.div (Js.num 0) (Js.num (cfgZero.iterations : ℚ)))) ∧
      (cfgZero.iterations = 0 →
        Js.div (Js.num 0) (Js.num (cfgZero.iterations : ℚ)) = Js.nan) ∧
      (∀ (b : Bench) (nm : String) (args : CaseSpec),
        (Bench.add b nm args).tests = b.tests ++ [args.toCase nm]) :=
  c9_zero_iterations cfgZero envQuiet _ ctx0 (by decide) rfl (fun _ => rfl) (fun _ _ => rfl)
    (fun _ _ => rfl) rfl rfl rfl rfl

/-- Default configuration with a single measured iteration. -/
def cfgOne : Config := { iterations := 1 }

/-- Environment in which every `measure` call rejects. -/
def envFail : Env := ⟨fun _ => false, fun _ _ => 1, fun _ _ => true, fun _ _ => false⟩

/-- Two-case registry whose cases both have `before` and `after` hooks. -/
def testsFail : List BenchmarkCase :=
  [⟨"x", none, true, false, false, true⟩, ⟨"y", none, true, false, false, true⟩]

/-- Counterexample to C3 as stated: when case "x"'s `measure` rejects,
the rejection does propagate out of `run()` and case "y" never starts —
but the state left behind has `running = true`: the `running` flag is
never cleared, so the RunState is left in a (spurious) *running*
condition, not the claimed non-running one. -/
theorem c3_counterexample :
    (run cfgOne envFail testsFail ctx0).isOk = false ∧
    (run cfgOne envFail testsFail ctx0).ctx.running = true ∧
    Ev.before "y" ∉ (run cfgOne envFail testsFail ctx0).ctx.trace := by decide

/-- C3 amended: a rejected `measure`/`preMeasure` call propagates uncaught
out of `run()` (the `Res.err` outcome) and aborts the entire remaining
case sequence — the trace stops at the rejected call; such a failure
leaves the RunState *with the `running` flag still set* (not reset, and
in particular not non-running); and `clear()` is always safe to call
afterwards, restoring the empty-registry, non-running, non-aborted,
zero-`totalms` state. -/
theorem c3_failure_semantics (cfg : Config) (env : Env)
    (tests : List BenchmarkCase) (c : RunCtx)
    (he : (run cfg env tests c).isOk = false) :
    (run cfg env tests c).ctx.running = true ∧
    (∃ pre, (∃ nm j, (run cfg env tests c).ctx.trace = pre ++ [Ev.measure nm j]) ∨
            (∃ nm j, (run cfg env tests c).ctx.trace = pre ++ [Ev.preMeasure nm j])) ∧
    (∀ b : Bench, (Bench.clear b).tests = [] ∧ (Bench.clear b).running = false ∧
      (Bench.clear b).abort = false ∧ (Bench.clear b).totalms = Js.num 0) := by
  rcases hrun : run cfg env tests c with d | d
  · simp [hrun] at he
  · obtain ⟨h1, pre, h2⟩ := run_err cfg env tests c d hrun
    exact ⟨by simpa using h1, ⟨pre, by simpa using h2⟩, fun b => ⟨rfl, rfl, rfl, rfl⟩⟩

/-- Witness for the amended C3 at a concrete input: the failing two-case
run of `c3_counterexample`. -/
theorem c3_failure_semantics_witness :
    (run cfgOne envFail testsFail ctx0).ctx.running = true ∧
    (∃ pre, (∃ nm j, (run cfgOne envFail testsFail ctx0).ctx.trace =
              pre ++ [Ev.measure nm j]) ∨
            (∃ nm j, (run cfgOne envFail testsFail ctx0).ctx.trace =
              pre ++ [Ev.preMeasure nm j])) ∧
    (∀ b : Bench, (Bench.clear b).tests = [] ∧ (Bench.clear b).running = false ∧
      (Bench.clear b).abort = false ∧ (Bench.clear b).totalms = Js.num 0) :=
  c3_failure_semantics cfgOne envFail testsFail ctx0 (by decide)

/-- Two-iteration configuration with all engine callbacks present. -/
def cfgTwo : Config :=
  { iterations := 2, hasCycle := true, hasIteration := true,
    hasBeforeAll := true, hasAfterAll := true }

/-- A case with `before` and `after` hooks (and no pre/post-measure). -/
def hookedCase (nm : String) : BenchmarkCase := ⟨nm, none, true, false, false, true⟩

/-- Three-case registry for the cancellation scenario. -/
def tests3 : List BenchmarkCase :=
  [hookedCase "c1", hookedCase "c2", hookedCase "c3"]

/-- Environment delivering one `cancel()` during the await numbered `tc`. -/
def envCancelAt (tc : Nat) : Env :=
  ⟨fun k => k == tc, fun _ _ => 1, fun _ _ => false, fun _ _ => false⟩

/-- Counterexample to C2 as stated: cancelling during case 2 (here while
case 2's first `measure` is pending, await number 14) gives exactly the
claimed behaviour for cases 1 and 2 — but case 3's `before` hook *is*
invoked: after the abort is observed, `run`'s loop still visits every
remaining case and runs its `before` and `after` hooks, only the
pre-measure/measured phases and `cycle` are skipped. -/
theorem c2_counterexample :
    (run cfgTwo (envCancelAt 14) tests3 ctx0).isOk = true ∧
    ((run cfgTwo (envCancelAt 14) tests3 ctx0).ctx.trace.filter
      (Ev.isCycleFor "c1")).length = 1 ∧
    ((run cfgTwo (envCancelAt 14) tests3 ctx0).ctx.trace.filter
      (Ev.isCycleFor "c2")).length = 0 ∧
    ((run cfgTwo (envCancelAt 14) tests3 ctx0).ctx.trace.filter
      (Ev.isAfterFor "c2")).length = 1 ∧
    ((run cfgTwo (envCancelAt 14) tests3 ctx0).ctx.trace.filter
      (Ev.isMeasureFor "c3")).length = 0 ∧
    Ev.before "c3" ∈ (run cfgTwo (envCancelAt 14) tests3 ctx0).ctx.trace := by decide

/-- C2 amended: for a `cancel()` delivered at any await of case 2 — from
its `before` hook (await 12) through the last await of its measured loop
(await 19) in this three-case, two-iteration run — `run()`'s promise
resolves; case 1's `cycle` fired exactly once; case 2's `after` fired
exactly once and its `cycle` never; case 3's `measure` (and its whole
measured and pre-measure phases, and `cycle`) never ran; but case 3's
`before` and `after` hooks still fired exactly once each: an observed
abort skips the remaining *phases* of the current and subsequent cases
while still running every remaining case's `before` and `after` hooks. -/
theorem c2_cancel_skips_measurement (tc : Nat) (h1 : 12 ≤ tc) (h2 : tc ≤ 19) :
    (run cfgTwo (envCancelAt tc) tests3 ctx0).isOk = true ∧
    ((run cfgTwo (envCancelAt tc) tests3 ctx0).ctx.trace.filter
      (Ev.isCycleFor "c1")).length = 1 ∧
    ((run cfgTwo (envCancelAt tc) tests3 ctx0).ctx.trace.filter
      (Ev.isCycleFor "c2")).length = 0 ∧
    ((run cfgTwo (envCancelAt tc) tests3 ctx0).ctx.trace.filter
      (Ev.isAfterFor "c2")).length = 1 ∧
    ((run cfgTwo (envCancelAt tc) tests3 ctx0).ctx.trace.filter
      (Ev.isMeasureFor "c3")).length = 0 ∧
    ((run cfgTwo (envCancelAt tc) tests3 ctx0).ctx.trace.filter
      (Ev.isCycleFor "c3")).length = 0 ∧
    ((run cfgTwo (envCancelAt tc) tests3 ctx0).ctx.trace.filter
      (Ev.isBeforeFor "c3")).length = 1 ∧
    ((run cfgTwo (envCancelAt tc) tests3 ctx0).ctx.trace.filter
      (Ev.isAfterFor "c3")).length = 1 := by
  interval_cases tc <;> exact (by decide)

/-- Witness for the amended C2 at the concrete cancellation point 12
(while case 2's `before` hook is pending). -/
theorem c2_cancel_skips_measurement_witness :
    12 ≤ 12 ∧
    ((run cfgTwo (envCancelAt 12) tests3 ctx0).isOk = true ∧
    ((run cfgTwo (envCancelAt 12) tests3 ctx0).ctx.trace.filter
      (Ev.isCycleFor "c1")).length = 1 ∧
    ((run cfgTwo (envCancelAt 12) tests3 ctx0).ctx.trace.filter
      (Ev.isCycleFor "c2")).length = 0 ∧
    ((run cfgTwo (envCancelAt 12) tests3 ctx0).ctx.trace.filter
      (Ev.isAfterFor "c2")).length = 1 ∧
    ((run cfgTwo (envCancelAt 12) tests3 ctx0).ctx.trace.filter
      (Ev.isMeasureFor "c3")).length = 0 ∧
    ((run cfgTwo (envCancelAt 12) tests3 ctx0).ctx.trace.filter
      (Ev.isCycleFor "c3")).length = 0 ∧
    ((run cfgTwo (envCancelAt 12) tests3 ctx0).ctx.trace.filter
      (Ev.isBeforeFor "c3")).length = 1 ∧
    ((run cfgTwo (envCancelAt 12) tests3 ctx0).ctx.trace.filter
      (Ev.isAfterFor "c3")).length = 1) :=
  ⟨by decide, c2_cancel_skips_measurement 12 (by decide) (by decide)⟩

/-! ## The consumer-side progress pipeline (`src/App.tsx`)

`App.tsx` registers the engine callbacks.  `iteration` is
`progress = throttle((testKey, {i}) => { if (running) set progress = i/iterations },
PROGRESS_THROTTLE, {leading: true, trailing: false})`; `preMeasureIteration`
calls the analogous throttled `prefillProgress` and, when `i === prefill - 1`,
flushes it and directly sets `prefill = 1`; `cycle` cancels
`prefillProgress`, flushes `progress`, and directly sets
`{mean, prefill: 1, progress: 1}`.  `lodash.throttle` with
`trailing: false` either invokes a call immediately or drops it, and
`flush()`/`cancel()` deliver no pending call (there is none without a
trailing edge); the drop decisions depend on wall-clock timing, so they
are modelled by an arbitrary oracle `drop`, and `flush`/`cancel` by the
identity.  `runFlag` models `running.current`, the guard inside the
throttled bodies (the direct terminal writes are unguarded in the
source). -/

/-- The `benchmarkResults[nm]` fields App.tsx maintains for one test key,
plus a counter indexing the throttled-call oracle. -/
structure AppSt where
  ticks : Nat
  progress : Option ℚ
  prefill : Option ℚ
  resultMean : Option Js
deriving DecidableEq, Repr

/-- One engine event processed by App.tsx's callbacks for test key `nm`
(`N` = the iterations setting, `P` = the prefill setting). -/
def appStep (nm : String) (N P : ℚ) (runFlag : Bool) (drop : Nat → Bool)
    (s : AppSt) : Ev → AppSt
  | .iteration n i _ _ =>
    let s1 := if n == nm && runFlag && !(drop s.ticks) then
        { s with progress := some ((i : ℚ) / N) } else s
    { s1 with ticks := s.ticks + 1 }
  | .preMeasureIteration n i =>
    let s1 := if n == nm && runFlag && !(drop s.ticks) then
        { s with prefill := some ((i : ℚ) / P) } else s
    let s2 := if n == nm && ((i : ℚ) == P - 1) then { s1 with prefill := some 1 } else s1
    { s2 with ticks := s.ticks + 1 }
  | .cycle n m =>
    if n == nm then { s with resultMean := some m, prefill := some 1, progress := some 1 }
    else s
  | _ => s

/-- App.tsx's view after a whole event sequence. -/
def appFold (nm : String) (N P : ℚ) (runFlag : Bool) (drop : Nat → Bool)
    (s : AppSt) (l : List Ev) : AppSt :=
  l.foldl (appStep nm N P runFlag drop) s

/-- Events carrying no engine callback App.tsx listens to (`after` hooks,
sleeps, `afterAll`) leave the App view unchanged. -/
theorem appFold_inert (nm : String) (N P : ℚ) (rf : Bool) (drop : Nat → Bool) :
    ∀ l : List Ev,
      (∀ e ∈ l, (∃ x, e = Ev.after x) ∨ e = Ev.sleepEv ∨ e = Ev.afterAll) →
      ∀ s, appFold nm N P rf drop s l = s := by
  intro l
  induction l with
  | nil => intro _ s; rfl
  | cons e rest ih =>
    intro h s
    have hstep : appStep nm N P rf drop s e = s := by
      rcases h e (List.mem_cons_self e rest) with ⟨x, rfl⟩ | rfl | rfl <;> rfl
    calc appFold nm N P rf drop s (e :: rest)
        = appFold nm N P rf drop (appStep nm N P rf drop s e) rest := rfl
      _ = s := by rw [hstep]; exact ih (fun e2 he2 => h e2 (List.mem_cons_of_mem e he2)) s

/-- After any event sequence of the form
`l1 ++ [cycle nm m] ++ l2` with `l2` inert, the App view shows the
terminal fractions `progress = 1` and `prefill = 1` — delivered by the
`cycle` handler's direct writes, for every drop oracle. -/
theorem appFold_cycle_terminal (nm : String) (N P : ℚ) (rf : Bool)
    (drop : Nat → Bool) (l1 l2 : List Ev) (m : Js)
    (h2 : ∀ e ∈ l2, (∃ x, e = Ev.after x) ∨ e = Ev.sleepEv ∨ e = Ev.afterAll)
    (s : AppSt) :
    (appFold nm N P rf drop s (l1 ++ [Ev.cycle nm m] ++ l2)).progress = some 1 ∧
    (appFold nm N P rf drop s (l1 ++ [Ev.cycle nm m] ++ l2)).prefill = some 1 := by
  have hstep : ∀ X : AppSt,
      List.foldl (appStep nm N P rf drop) X [Ev.cycle nm m] =
      { X with resultMean := some m, prefill := some 1, progress := some 1 } := by
    intro X
    simp [List.foldl, appStep]
  have hfold : appFold nm N P rf drop s (l1 ++ [Ev.cycle nm m] ++ l2) =
      { List.foldl (appStep nm N P rf drop) s l1 with
        resultMean := some m, prefill := some 1, progress := some 1 } := by
    rw [appFold, List.foldl_append, List.foldl_append, hstep]
    exact appFold_inert nm N P rf drop l2 h2 _
  rw [hfold]
  exact ⟨rfl, rfl⟩

/-- The case blocks of a concatenated registry split accordingly. -/
theorem casesEvs_append (cfg : Config) (env : Env) :
    ∀ (ts1 ts2 : List BenchmarkCase) (idx : Nat),
      casesEvs cfg env idx (ts1 ++ ts2) =
        casesEvs cfg env idx ts1 ++ casesEvs cfg env (idx + ts1.length) ts2 := by
  intro ts1
  induction ts1 with
  | nil => intro ts2 idx; simp [casesEvs]
  | cons t rest ih =>
    intro ts2 idx
    have harith : idx + 1 + rest.length = idx + (rest.length + 1) := by omega
    simp [casesEvs, ih, List.append_assoc, harith]

/-- The phase-relative completion fraction the App derives from an engine
progress callback: `i / iterations` for the measured loop and
`i / prefill` for the pre-measure loop (spec §4.3). -/
def fracOf (N P : ℚ) : Ev → Option ℚ
  | .iteration _ i _ _ => some ((i : ℚ) / N)
  | .preMeasureIteration _ i => some ((i : ℚ) / P)
  | _ => none

/-- Configuration of the progress scenario: two measured iterations, two
pre-measure iterations, every callback present. -/
def cfgProg : Config :=
  { iterations := 2, preMeasureIterations := some 2, hasCycle := true,
    hasIteration := true, hasPreMeasureIteration := true }

/-- A case with a `preMeasure` hook only. -/
def tProg : BenchmarkCase := ⟨"a", none, false, true, false, false⟩

/-- Counterexample to C8 as stated: in a run in which every phase of the
case runs to completion (the `cycle` fired), no progress callback the
engine invoked carries fraction 1 — the measured-loop fractions are
`0/2, 1/2` and the pre-measure fractions `0/2, 1/2` — and the engine's
event stream contains no flush or cancel of any consumer-side throttle
(no such action exists in `Benchmark.ts`): the terminal value is not
delivered by the engine. -/
theorem c8_counterexample :
    (run cfgProg envQuiet [tProg] ctx0).isOk = true ∧
    ((run cfgProg envQuiet [tProg] ctx0).ctx.trace.filter
      (Ev.isCycleFor "a")).length = 1 ∧
    (1 : ℚ) ∉ (run cfgProg envQuiet [tProg] ctx0).ctx.trace.filterMap (fracOf 2 2) := by
  obtain ⟨d, hd, htr, -, -, -⟩ := run_ok cfgProg envQuiet [tProg]
      (fun _ => rfl) (fun _ _ => rfl) (fun _ _ => rfl) ctx0 rfl rfl rfl
  rw [hd]
  simp only [Res.isOk_ok, Res.ctx_ok]
  rw [htr]
  refine ⟨trivial, ?_, ?_⟩
  · simp [runEvs, casesEvs, caseEvs, preEvs, measEvs, cfgProg, tProg, Config.pmBound,
      Ev.isCycleFor, ctx0, Bench.startCtx, Bench.init]
  · simp [runEvs, casesEvs, caseEvs, preEvs, measEvs, cfgProg, tProg, Config.pmBound,
      fracOf, ctx0, Bench.startCtx, Bench.init]

/-- C8 amended: for every case whose measured loop completes unaborted
with the `cycle` callback configured, the *consumer's* callbacks
(`App.tsx`) deliver the terminal fractions: the `cycle` handler's direct
`setBenchmarkResult({mean, prefill: 1, progress: 1})` (and, for the
prefill phase, the `preMeasureIteration` handler's direct write at
`i = prefill - 1`) set `progress = 1` and `prefill = 1` in the app state
regardless of which intermediate throttled calls the consumer's wrapper
drops — the engine itself performs no flush or cancel; it merely invokes
the registered callbacks at the phase boundaries. -/
theorem c8_terminal_progress (cfg : Config) (env : Env)
    (ts : List BenchmarkCase) (t : BenchmarkCase) (c : RunCtx)
    (hc : ∀ k, env.cancelAt k = false)
    (hmf : ∀ idx j, env.measureFail idx j = false)
    (hpf : ∀ idx j, env.preMeasureFail idx j = false)
    (hcy : cfg.hasCycle = true)
    (hr : c.running = false) (ha : c.abort = false) (htot : c.totalms = Js.num 0) :
    ∃ d, run cfg env (ts ++ [t]) c = .ok d ∧
      ∀ (N P : ℚ) (rf : Bool) (drop : Nat → Bool) (s : AppSt),
        (appFold t.name N P rf drop s d.trace).progress = some 1 ∧
        (appFold t.name N P rf drop s d.trace).prefill = some 1 := by
  obtain ⟨d, hd, htr, -, -, -⟩ := run_ok cfg env (ts ++ [t]) hc hmf hpf c hr ha htot
  refine ⟨d, hd, fun N P rf drop s => ?_⟩
  have hsplit : d.trace =
      (c.trace ++ (if cfg.hasBeforeAll then [Ev.beforeAll] else []) ++
        casesEvs cfg env 0 ts ++
        ((if t.hasBefore then [Ev.before t.name] else []) ++
          (if t.hasPreMeasure then preEvs cfg t 0 cfg.pmBound.toNat else []) ++
          [Ev.sleepEv] ++
          measEvs cfg env (0 + ts.length) t 0 cfg.iterations.toNat)) ++
      [Ev.cycle t.name (cycleMean cfg env (0 + ts.length) t)] ++
      ((if t.hasAfter then [Ev.after t.name] else []) ++ [Ev.sleepEv] ++
        (if cfg.hasAfterAll then [Ev.afterAll] else [])) := by
    rw [htr, runEvs, casesEvs_append]
    simp [casesEvs, caseEvs, hcy, List.append_assoc]
  rw [hsplit]
  refine appFold_cycle_terminal t.name N P rf drop _ _ _ ?_ s
  intro e he
  rcases List.mem_append.mp he with hL | hR
  · rcases List.mem_append.mp hL with hA | hS
    · cases haf : t.hasAfter <;> rw [haf] at hA <;> simp at hA
      exact Or.inl ⟨t.name, hA⟩
    · simp at hS
      exact Or.inr (Or.inl hS)
  · cases hB : cfg.hasAfterAll <;> rw [hB] at hR <;> simp at hR
    exact Or.inr (Or.inr hR)

/-- Witness for the amended C8 at a concrete input: the single-case
progress scenario. -/
theorem c8_terminal_progress_witness :
    ∃ d, run cfgProg envQuiet ([] ++ [tProg]) ctx0 = .ok d ∧
      ∀ (N P : ℚ) (rf : Bool) (drop : Nat → Bool) (s : AppSt),
        (appFold tProg.name N P rf drop s d.trace).progress = some 1 ∧
        (appFold tProg.name N P rf drop s d.trace).prefill = some 1 :=
  c8_terminal_progress cfgProg envQuiet [] tProg ctx0 (fun _ => rfl) (fun _ _ => rfl)
    (fun _ _ => rfl) rfl rfl rfl rfl
